import Mathlib

/-!
Verification of the shift-logbook generation engine.

The Python sources are shallowly embedded as pure Lean functions. Random
draws (Python `random.choice`) are modelled by an explicit choice index
`c : Nat`: the drawn element is the one at position `c % length` of the
candidate list, so every possible draw corresponds to some index and the
functions stay executable. Pandas `NaN` cells are modelled as `none` of
`Option String`. Calendar dates are modelled by their day offset from the
configured start date.
-/

namespace Preenchimento

/-- Model of Python `random.choice(l)`: the element of `l` at the oracle
index `c` reduced modulo the length (`""` for the empty list, where the
Python call would raise). -/
def randomChoice (l : List String) (c : Nat) : String :=
  l.getD (c % l.length) ""

theorem randomChoice_mem (l : List String) (c : Nat) (h : l ≠ []) :
    randomChoice l c ∈ l := by
  have hlen : 0 < l.length := List.length_pos.mpr h
  have hlt : c % l.length < l.length := Nat.mod_lt _ hlen
  unfold randomChoice
  rw [List.getD_eq_getElem?_getD, List.getElem?_eq_getElem hlt]
  exact List.getElem_mem hlt

/-- Embedding of `LogbookGenerator.get_varied_content` (src/generator.py,
lines 83-106; the identical copy lives in generator_custom.py lines
146-169).  `pool` is `self.content[content_type]`, `used` is
`used_content[content_type]`, and the pair returned is the selected value
together with the updated usage history. -/
def getVariedContent (pool used : List String) (c : Nat) : String × List String :=
  let used1 := if pool.length ≤ used.length then [] else used
  let unused := pool.filter (fun x => decide (x ∉ used1))
  let selected := if unused.isEmpty then randomChoice pool c else randomChoice unused c
  let used2 := used1 ++ [selected]
  (selected, if 3 < used2.length then used2.drop 1 else used2)

/-- The variety-selection steps exactly as the specification words them
(spec sections 4.2 steps 3-6): clear the history when every candidate is
recently used, take the pool minus the recent values, fall back to the
full pool when that difference is empty, draw one allowed candidate,
append it to the history, and drop the oldest entry past the bound 3.
Written from the claim text, to be compared with `getVariedContent`. -/
def selectSpecSteps (pool recent : List String) (c : Nat) : String × List String :=
  let recent1 := if pool.length ≤ recent.length then [] else recent
  let diff := pool.filter (fun x => decide (x ∉ recent1))
  let allowed := if diff = [] then pool else diff
  let chosen := randomChoice allowed c
  let hist := recent1 ++ [chosen]
  (chosen, if 3 < hist.length then hist.drop 1 else hist)

/-- Running the variety selector over a whole sequence of calls for one
category: the history is threaded through, one oracle index per call.
Returns the list of selected values and the final history. -/
def runAll (pool : List String) : List String → List Nat → List String × List String
  | used, [] => ([], used)
  | used, c :: cs =>
    let r := getVariedContent pool used c
    let rest := runAll pool r.2 cs
    (r.1 :: rest.1, rest.2)

theorem ite_isEmpty_choice (pool unused : List String) (c : Nat) :
    (if unused.isEmpty then randomChoice pool c else randomChoice unused c) =
      randomChoice (if unused = [] then pool else unused) c := by
  by_cases h : unused = [] <;> simp [h, List.isEmpty_iff]

theorem selected_mem (pool u1 : List String) (c : Nat) (hpool : pool ≠ []) :
    (if (pool.filter (fun x => decide (x ∉ u1))).isEmpty
      then randomChoice pool c
      else randomChoice (pool.filter (fun x => decide (x ∉ u1))) c) ∈ pool := by
  by_cases hfe : pool.filter (fun x => decide (x ∉ u1)) = []
  · rw [hfe]
    simp only [List.isEmpty_nil, if_true]
    exact randomChoice_mem pool c hpool
  · have hb : (pool.filter (fun x => decide (x ∉ u1))).isEmpty = false := by
      simpa [List.isEmpty_iff] using hfe
    rw [hb]
    simp only [Bool.false_eq_true, if_false]
    exact List.mem_of_mem_filter (randomChoice_mem _ c hfe)

/-- C1: the variety selector follows exactly the spec steps: reset when
the recent list covers the pool, allowed = pool minus recent with
full-pool fallback, draw one allowed candidate, append it, drop the
oldest entry past the bound 3; the returned value is the chosen
candidate (in particular a pool member whenever the pool is non-empty)
and the post-call history is the one those steps produce. -/
theorem claim1_variety_selector_steps (pool used : List String) (c : Nat) :
    getVariedContent pool used c = selectSpecSteps pool used c ∧
    (pool ≠ [] → (getVariedContent pool used c).1 ∈ pool) := by
  constructor
  · unfold getVariedContent selectSpecSteps
    dsimp only
    rw [ite_isEmpty_choice]
  · intro hpool
    unfold getVariedContent
    dsimp only
    exact selected_mem pool _ c hpool

/-- C1 witness: the refinement theorem instantiated on a concrete pool
and history. -/
theorem claim1_variety_selector_steps_witness :
    (getVariedContent ["a", "b"] ["a"] 0 = selectSpecSteps ["a", "b"] ["a"] 0 ∧
      (["a", "b"] ≠ ([] : List String) →
        (getVariedContent ["a", "b"] ["a"] 0).1 ∈ ["a", "b"])) ∧
    (getVariedContent ["a", "b"] ["a"] 0).1 ∈ ["a", "b"] :=
  ⟨claim1_variety_selector_steps ["a", "b"] ["a"] 0,
   (claim1_variety_selector_steps ["a", "b"] ["a"] 0).2 (by decide)⟩

theorem append_trim_length (l : List String) (s : String) (hl : l.length ≤ 3) :
    (if 3 < (l ++ [s]).length then (l ++ [s]).drop 1 else l ++ [s]).length ≤ 3 := by
  by_cases h : 3 < (l ++ [s]).length
  · rw [if_pos h]
    simpa using hl
  · rw [if_neg h]
    simp only [List.length_append, List.length_singleton] at h ⊢
    omega

theorem hist_le_three_step (pool h : List String) (c : Nat) (hh : h.length ≤ 3) :
    ((getVariedContent pool h c).2).length ≤ 3 := by
  unfold getVariedContent
  dsimp only
  by_cases h1 : pool.length ≤ h.length
  · rw [if_pos h1]
    exact append_trim_length [] _ (by simp)
  · rw [if_neg h1]
    exact append_trim_length h _ hh

/-- C8: the per-category usage history never exceeds the bound 3: one
selector call preserves the bound, and a whole run from the empty history
ends (and therefore stays, since every prefix is itself a run) within the
bound, for every pool and every call sequence. -/
theorem claim8_history_bound :
    (∀ pool h c, h.length ≤ 3 → ((getVariedContent pool h c).2).length ≤ 3) ∧
    (∀ pool cs, ((runAll pool [] cs).2).length ≤ 3) := by
  refine ⟨hist_le_three_step, ?_⟩
  intro pool cs
  suffices hgen : ∀ cs (h : List String), h.length ≤ 3 →
      ((runAll pool h cs).2).length ≤ 3 by
    exact hgen cs [] (by simp)
  intro cs
  induction cs with
  | nil => intro h hh; simpa [runAll] using hh
  | cons c cs ih =>
    intro h hh
    simpa [runAll] using ih _ (hist_le_three_step pool h c hh)

/-- C8 witness: the bound-preservation conjunct applied at a concrete
history of length 3. -/
theorem claim8_history_bound_witness :
    ((getVariedContent ["a", "b"] ["x", "y", "z"] 0).2).length ≤ 3 :=
  claim8_history_bound.1 ["a", "b"] ["x", "y", "z"] 0 (by decide)

/-- Embedding of the scheduling core of `LogbookGenerator.generate_shifts`
(src/generator.py lines 54-63; generator_custom.py lines 77-80 and
input_collector.py lines 54-56 repeat it verbatim): slot `i` (0-based)
carries number `i + 1`, the date `start_date + i // 2` days (modelled as
the day offset `i / 2`), and type lunch when `i` is even, dinner when
odd; 48 slots are produced. -/
def genScheduleSlot (i : Nat) : Nat × Nat × String :=
  (i + 1, i / 2, if i % 2 = 0 then "lunch" else "dinner")

def genSchedule : List (Nat × Nat × String) :=
  (List.range 48).map genScheduleSlot

/-- The three rotation kinds of src/logbook_generator.py line 71. -/
def shiftPattern : List String := ["Preparation", "Sauce", "Garnish"]

/-- Embedding of the rotation rule of `generate_shift_data`
(src/logbook_generator.py lines 79-80): the kind of 1-based `day` is
`pattern[((day - 1) // 5) % len(pattern)]`. -/
def rotationShift (day : Nat) : String :=
  shiftPattern.getD (((day - 1) / 5) % shiftPattern.length) ""

/-- Embedding of the kind sequence produced by `generate_shift_data`
(src/logbook_generator.py lines 78-91) for `days` days. -/
def generateShiftKinds (days : Nat) : List String :=
  (List.range days).map (fun i => rotationShift (i + 1))

/-- C3: scheduling is a pure deterministic function of the slot index:
slot `i` of the lunch/dinner generators gets number `i + 1`, day offset
`i / 2` (slots_per_day = 2) and kind `kinds[i % 2]` for
`kinds = [lunch, dinner]`; day `i` (0-based) of the 5-day block rotation
gets kind `kinds[(i / 5) % 3]` for the 3-kind pattern. Both schedules
are embedded as pure functions, so identical inputs give identical
outputs by construction. -/
theorem claim3_schedule_deterministic (i days : Nat) (hi : i < 48) (hd : i < days) :
    genSchedule[i]? = some (i + 1, i / 2, (["lunch", "dinner"]).getD (i % 2) "") ∧
    (generateShiftKinds days)[i]? =
      some (shiftPattern.getD ((i / 5) % shiftPattern.length) "") := by
  constructor
  · rw [genSchedule, List.getElem?_map, List.getElem?_range hi]
    rcases Nat.mod_two_eq_zero_or_one i with h | h <;>
      simp [genScheduleSlot, h]
  · rw [generateShiftKinds, List.getElem?_map, List.getElem?_range hd]
    simp [rotationShift]

/-- C3 witness: the schedule theorem instantiated at slot 5 of a 45-day
run: shift number 6, third day, dinner slot, and Sauce in the rotation. -/
theorem claim3_schedule_deterministic_witness :
    genSchedule[5]? = some (6, 2, (["lunch", "dinner"]).getD (5 % 2) "") ∧
    (generateShiftKinds 45)[5]? =
      some (shiftPattern.getD ((5 / 5) % shiftPattern.length) "") :=
  claim3_schedule_deterministic 5 45 (by decide) (by decide)

/-- Model of the truthiness of Python `s.strip()` in merge_custom_data:
the stripped string is empty exactly when every character of `s` is
whitespace. -/
def strBlank (s : String) : Bool := s.data.all Char.isWhitespace

/-- Embedding of the per-field branch of
`CustomLogbookGenerator.merge_custom_data` (src/generator_custom.py lines
126-131): a field present in the custom shift and non-blank after strip
is used verbatim, otherwise it is drawn from the content pool. -/
def mergeField (ov : Option String) (pool : List String) (c : Nat) : String :=
  match ov with
  | some s => if strBlank s then randomChoice pool c else s
  | none => randomChoice pool c

/-- Embedding of the prepared_service branch of merge_custom_data
(src/generator_custom.py lines 120-123): `custom_shift.get` with the
per-type pool entry as default, so a present override wins even when it
is blank. -/
def mergePreparedService (ov : Option String) (dflt : String) : String :=
  ov.getD dflt

/-- Embedding of one field update of `CSVProcessor.fill_missing_data`
(src/csv_processor.py lines 107-126): a cell is refilled from the pool
only when it is missing (pandas NaN, modelled `none`) or exactly the
empty string; no whitespace trimming happens. -/
def csvFillField (cell : Option String) (pool : List String) (c : Nat) : String :=
  match cell with
  | none => randomChoice pool c
  | some s => if s = "" then randomChoice pool c else s

/-- One custom-override record of shifts_data_custom.json as read by
merge_custom_data; absent keys are `none`. -/
structure CustomShift where
  prepared_service : Option String
  special_requests : Option String
  food_details : Option String
  complaints : Option String
  debrief : Option String
deriving DecidableEq

/-- The five narrative fields produced by merge_custom_data and
generate_automatic_data. -/
structure MergedData where
  prepared_service : String
  special_requests : String
  food_details : String
  complaints : String
  debrief : String
deriving DecidableEq

/-- Embedding of `CustomLogbookGenerator.merge_custom_data`
(src/generator_custom.py lines 115-133); one oracle index per pool
draw. -/
def mergeCustomData (cs : CustomShift) (prepDefault : String)
    (poolSR poolFD poolC poolD : List String) (c1 c2 c3 c4 : Nat) : MergedData :=
  { prepared_service := mergePreparedService cs.prepared_service prepDefault
    special_requests := mergeField cs.special_requests poolSR c1
    food_details := mergeField cs.food_details poolFD c2
    complaints := mergeField cs.complaints poolC c3
    debrief := mergeField cs.debrief poolD c4 }

/-- C2 counterexample: a custom record whose prepared-for-service
override is present but blank. merge_custom_data copies the blank string
into the assembled record instead of falling through to the pool entry,
so an assembled narrative field can be the blank string. -/
theorem claim2_counterexample :
    (mergeCustomData ⟨some "", some "a", some "b", some "c", some "d"⟩
        "Standard mise en place."
        ["p1"] ["p2"] ["p3"] ["p4"] 0 0 0 0).prepared_service = "" ∧
    strBlank "" = true ∧
    ("" : String) ≠ "Standard mise en place." := by decide

/-- C2 amended: the override-wins-unless-blank-after-trim rule holds for
the four listed narrative fields of the custom-JSON path; the
prepared-for-service field instead uses a present override verbatim even
when blank; and the CSV path falls through to the pool only for missing
or exactly-empty cells, keeping whitespace-only overrides verbatim. -/
theorem claim2_amended (pool : List String) (c : Nat) (s t dflt : String)
    (hpool : pool ≠ []) (hs : strBlank s = false) (ht : strBlank t = true)
    (ht2 : t ≠ "") :
    mergeField (some s) pool c = s ∧
    mergeField (some t) pool c ∈ pool ∧
    mergeField none pool c ∈ pool ∧
    mergePreparedService (some t) dflt = t ∧
    csvFillField (some s) pool c = s ∧
    csvFillField (some t) pool c = t ∧
    csvFillField (some "") pool c ∈ pool ∧
    csvFillField none pool c ∈ pool := by
  have hs2 : s ≠ "" := by
    intro h
    rw [h] at hs
    simp [strBlank] at hs
  refine ⟨?_, ?_, ?_, rfl, ?_, ?_, ?_, ?_⟩
  · simp [mergeField, hs]
  · simp only [mergeField, ht, if_true]
    exact randomChoice_mem pool c hpool
  · exact randomChoice_mem pool c hpool
  · simp [csvFillField, hs2]
  · simp [csvFillField, ht2]
  · simp only [csvFillField, if_true]
    exact randomChoice_mem pool c hpool
  · exact randomChoice_mem pool c hpool

/-- C2 witness: the amended theorem at a one-element pool, a non-blank
override and a whitespace-only override. -/
theorem claim2_amended_witness :
    mergeField (some "x") ["p"] 0 = "x" ∧
    mergeField (some " ") ["p"] 0 ∈ ["p"] ∧
    mergeField none ["p"] 0 ∈ ["p"] ∧
    mergePreparedService (some " ") "d" = " " ∧
    csvFillField (some "x") ["p"] 0 = "x" ∧
    csvFillField (some " ") ["p"] 0 = " " ∧
    csvFillField (some "") ["p"] 0 ∈ ["p"] ∧
    csvFillField none ["p"] 0 ∈ ["p"] :=
  claim2_amended ["p"] 0 "x" " " "d" (by decide) (by decide) (by decide) (by decide)

/-- One data row of the CSV handled by CSVProcessor; `none` models a
pandas NaN cell. Only the five narrative columns take part in filling
and in the summary classification. -/
structure CsvRow where
  food_details : Option String
  special_requests : Option String
  complaints_problems : Option String
  solutions_implemented : Option String
  debrief_learnings : Option String
deriving DecidableEq

/-- The content pools used by CSVProcessor (src/csv_processor.py lines
48-75): field column to pool key mapping is food_details to
food_details, special_requests to special_requests, complaints_problems
to problems, solutions_implemented to solutions, debrief_learnings to
learnings. -/
structure Pools5 where
  food_details : List String
  special_requests : List String
  problems : List String
  solutions : List String
  learnings : List String

/-- Embedding of `CSVProcessor.fill_missing_data` (src/csv_processor.py
lines 95-128) on one row; one oracle index per field. -/
def fillMissingRow (pools : Pools5) (r : CsvRow) (c1 c2 c3 c4 c5 : Nat) : CsvRow :=
  { food_details := some (csvFillField r.food_details pools.food_details c1)
    special_requests := some (csvFillField r.special_requests pools.special_requests c2)
    complaints_problems := some (csvFillField r.complaints_problems pools.problems c3)
    solutions_implemented := some (csvFillField r.solutions_implemented pools.solutions c4)
    debrief_learnings := some (csvFillField r.debrief_learnings pools.learnings c5) }

/-- Python `row[col] in pools.get(key, [])` for a cell value: a NaN cell
is in no pool. -/
def optInPool (v : Option String) (pool : List String) : Bool :=
  match v with
  | none => false
  | some s => pool.contains s

/-- Embedding of the classification inside
`CSVProcessor.generate_summary_report` (src/csv_processor.py lines
255-265): one whole row counts as automatically completed when any of
its five narrative values occurs in the matching pool. -/
def rowCountsAuto (pools : Pools5) (r : CsvRow) : Bool :=
  optInPool r.food_details pools.food_details ||
  optInPool r.special_requests pools.special_requests ||
  optInPool r.complaints_problems pools.problems ||
  optInPool r.solutions_implemented pools.solutions ||
  optInPool r.debrief_learnings pools.learnings

/-- Embedding of the manual/auto counting loop of
generate_summary_report (src/csv_processor.py lines 252-265): the pair
is (manual_count, auto_count). -/
def summaryCounts (pools : Pools5) (rows : List CsvRow) : Nat × Nat :=
  rows.foldl
    (fun mc r => if rowCountsAuto pools r then (mc.1, mc.2 + 1) else (mc.1 + 1, mc.2))
    (0, 0)

theorem summaryCounts_go (pools : Pools5) (rows : List CsvRow) (a b : Nat) :
    rows.foldl
      (fun mc r => if rowCountsAuto pools r then (mc.1, mc.2 + 1) else (mc.1 + 1, mc.2))
      (a, b) =
    (a + (rows.filter (fun r => !rowCountsAuto pools r)).length,
     b + (rows.filter (fun r => rowCountsAuto pools r)).length) := by
  induction rows generalizing a b with
  | nil => simp
  | cons r rs ih =>
    by_cases h : rowCountsAuto pools r = true
    · simp [List.foldl_cons, List.filter_cons, h, ih, Prod.ext_iff]
      omega
    · simp [List.foldl_cons, List.filter_cons, h, ih, Prod.ext_iff]
      omega

/-- C5 amended: the run summary counts shifts, not fields, and carries
no provenance flag: a shift is counted auto-completed exactly when at
least one of its five narrative values occurs in the corresponding
pool, manually-filled otherwise, and the two counts add up to the
number of shifts. A manually supplied text that coincides with a pool
string therefore makes its whole shift count as auto-completed. -/
theorem claim5_amended (pools : Pools5) (rows : List CsvRow) :
    summaryCounts pools rows =
      ((rows.filter (fun r => !rowCountsAuto pools r)).length,
       (rows.filter (fun r => rowCountsAuto pools r)).length) ∧
    (summaryCounts pools rows).1 + (summaryCounts pools rows).2 = rows.length := by
  have h := summaryCounts_go pools rows 0 0
  constructor
  · simpa [summaryCounts] using h
  · have hlen := @List.length_eq_length_filter_add CsvRow rows
      (fun r => rowCountsAuto pools r)
    rw [summaryCounts, h]
    simp only [Nat.zero_add]
    simp only [Bool.not_eq_true] at hlen ⊢
    omega

/-- Concrete pools for the C5 counterexample. -/
def cexPools : Pools5 :=
  ⟨["Grilled the daily specials."], ["sr pool"], ["pr pool"], ["so pool"], ["le pool"]⟩

/-- Concrete row for the C5 counterexample: every field was supplied by
hand and is non-blank, but the food_details text coincides with a pool
candidate string. -/
def cexRow : CsvRow :=
  ⟨some "Grilled the daily specials.", some "my own request",
   some "my own problem", some "my own solution", some "my own learning"⟩

/-- C5 counterexample: `fill_missing_data` leaves the fully hand-filled
row unchanged, so zero of its fields are pool-resolved, yet the summary
classifies the shift as automatically completed: the reported counts are
(manual, auto) = (0, 1) although per-field provenance would give no
pool-sampled field at all. -/
theorem claim5_counterexample :
    fillMissingRow cexPools cexRow 0 0 0 0 0 = cexRow ∧
    summaryCounts cexPools [cexRow] = (0, 1) := by decide

/-- One workflow sub-table row of the complete CSV; `none` models NaN. -/
structure WRow where
  timeline : Option String
  task : Option String
  equipment : Option String
  communication : Option String
deriving DecidableEq

/-- The workflow pools of CSVProcessorCompleto (src/csv_processor_completo.py
lines 91-119). -/
structure WPools where
  workflow_tasks : List String
  workflow_equipment : List String
  workflow_communication : List String

/-- Python blank test of fill_missing_data: `pd.isna(v) or v == ''`. -/
def blankCell : Option String → Bool
  | none => true
  | some s => s == ""

def lunchBaseTimes : List String :=
  ["10:30", "11:00", "12:00", "13:00", "14:00", "15:00", "15:30", "16:00"]

def dinnerBaseTimes : List String :=
  ["16:00", "17:00", "18:00", "19:00", "20:00", "21:00", "21:30", "22:00"]

/-- Embedding of the workflow part of
`CSVProcessorCompleto.fill_missing_data` (src/csv_processor_completo.py
lines 161-178) for 1-based row number `i`: the whole fill is guarded by
the timeline cell alone, and when it fires the task, equipment and
communication cells are all overwritten with pool draws. -/
def fillWorkflowRow (shiftType : String) (i : Nat) (pools : WPools)
    (r : WRow) (ct ce cc : Nat) : WRow :=
  if blankCell r.timeline then
    let baseTimes := if shiftType = "lunch" then lunchBaseTimes else dinnerBaseTimes
    if i ≤ baseTimes.length then
      { timeline := some (baseTimes.getD (i - 1) "")
        task := some (randomChoice pools.workflow_tasks ct)
        equipment := some (randomChoice pools.workflow_equipment ce)
        communication := some (randomChoice pools.workflow_communication cc) }
    else r
  else r

/-- Python truthiness of a cell fetched in generate_documents
(src/csv_processor_completo.py lines 192-197): the empty string is
falsy, any other string truthy, and a float NaN is truthy. -/
def truthyCell : Option String → Bool
  | none => true
  | some s => s != ""

/-- Embedding of the row guard of
`CSVProcessorCompleto.generate_documents` (src/csv_processor_completo.py
line 197): a workflow row reaches the emitted table only when both its
timeline and its task are truthy; the equipment and communication cells
are not checked. -/
def emitKeep (r : WRow) : Bool := truthyCell r.timeline && truthyCell r.task

/-- C7 counterexample: a workflow row whose timeline is blank but whose
task cell holds non-blank user text. fill_missing_data overwrites the
user-supplied task (and equipment and communication) with pool draws, so
a cell supplied non-blank by the override is not kept. -/
theorem claim7_counterexample :
    (fillWorkflowRow "lunch" 1 ⟨["PoolTask"], ["PoolEquip"], ["PoolComm"]⟩
        ⟨some "", some "My own prep task", some "Grill", some "Head chef"⟩
        0 0 0).task = some "PoolTask" ∧
    ("PoolTask" : String) ≠ "My own prep task" := by decide

/-- C7 amended: the workflow fill is driven by the timeline cell alone:
when a row's timeline is missing or empty (and the row number is within
the 8 base times), the timeline is set from the shift-type's base times
and the task, equipment and communication cells are all overwritten with
pool draws, losing any user-supplied text there; when the timeline is
non-blank, no cell of the row is filled, blank or not. At emission a row
is kept only when timeline and task are both truthy, so a row with a
blank task or blank timeline is dropped rather than completed, and the
equipment and communication cells are never checked. -/
theorem claim7_amended (shiftType : String) (i : Nat) (pools : WPools)
    (r : WRow) (ct ce cc : Nat)
    (hi1 : 1 ≤ i) (hi8 : i ≤ 8) :
    (blankCell r.timeline = true →
      fillWorkflowRow shiftType i pools r ct ce cc =
        { timeline := some
            ((if shiftType = "lunch" then lunchBaseTimes else dinnerBaseTimes).getD (i - 1) "")
          task := some (randomChoice pools.workflow_tasks ct)
          equipment := some (randomChoice pools.workflow_equipment ce)
          communication := some (randomChoice pools.workflow_communication cc) }) ∧
    (blankCell r.timeline = false →
      fillWorkflowRow shiftType i pools r ct ce cc = r) ∧
    (r.task = some "" → emitKeep r = false) ∧
    (r.timeline = some "" → emitKeep r = false) := by
  refine ⟨?_, ?_, ?_, ?_⟩
  · intro hb
    unfold fillWorkflowRow
    rw [hb]
    dsimp only
    rw [if_pos rfl]
    have hlen : i ≤ (if shiftType = "lunch" then lunchBaseTimes else dinnerBaseTimes).length := by
      by_cases hst : shiftType = "lunch" <;> simp [hst, lunchBaseTimes, dinnerBaseTimes] <;> omega
    rw [if_pos hlen]
  · intro hb
    unfold fillWorkflowRow
    rw [hb]
    simp
  · intro hb
    simp [emitKeep, truthyCell, hb]
  · intro hb
    simp [emitKeep, truthyCell, hb]

/-- C7 witness: the amended theorem at row 1 of a lunch shift with a
blank timeline, and the emission guard at a row with a blank task. -/
theorem claim7_amended_witness :
    ((blankCell (some "") = true →
      fillWorkflowRow "lunch" 1 ⟨["t"], ["e"], ["c"]⟩ ⟨some "", some "u", some "v", some "w"⟩ 0 0 0 =
        { timeline := some ((if ("lunch" : String) = "lunch" then lunchBaseTimes else dinnerBaseTimes).getD 0 "")
          task := some (randomChoice ["t"] 0)
          equipment := some (randomChoice ["e"] 0)
          communication := some (randomChoice ["c"] 0) }) ∧
     (blankCell (some "") = false →
      fillWorkflowRow "lunch" 1 ⟨["t"], ["e"], ["c"]⟩ ⟨some "", some "u", some "v", some "w"⟩ 0 0 0 =
        ⟨some "", some "u", some "v", some "w"⟩) ∧
     ((some "u" : Option String) = some "" →
      emitKeep ⟨some "", some "u", some "v", some "w"⟩ = false) ∧
     ((some "" : Option String) = some "" →
      emitKeep ⟨some "", some "u", some "v", some "w"⟩ = false)) ∧
    fillWorkflowRow "lunch" 1 ⟨["t"], ["e"], ["c"]⟩ ⟨some "", some "u", some "v", some "w"⟩ 0 0 0 =
      { timeline := some "10:30", task := some "t", equipment := some "e",
        communication := some "c" } := by
  refine ⟨claim7_amended "lunch" 1 ⟨["t"], ["e"], ["c"]⟩
    ⟨some "", some "u", some "v", some "w"⟩ 0 0 0 (by decide) (by decide), ?_⟩
  have h := (claim7_amended "lunch" 1 ⟨["t"], ["e"], ["c"]⟩
    ⟨some "", some "u", some "v", some "w"⟩ 0 0 0 (by decide) (by decide)).1 (by decide)
  rw [h]
  decide

/-- The per-category usage histories threaded through
CustomLogbookGenerator.generate_shifts (src/generator_custom.py lines
67-72). -/
structure UsedContent where
  special_requests : List String
  food_details : List String
  complaints : List String
  debrief : List String
deriving DecidableEq

/-- The four varied content pools of content_pools.json as used by
generator_custom.py. -/
structure ContentPools where
  special_requests : List String
  food_details : List String
  complaints : List String
  debrief : List String

/-- Embedding of `CustomLogbookGenerator.generate_automatic_data`
(src/generator_custom.py lines 135-144) together with the history
mutation of get_varied_content: each of the four varied categories is
drawn through the variety selector, updating its own history;
prepared_service is the fixed per-type pool entry. -/
def generateAutomaticData (pools : ContentPools) (prepared : String)
    (u : UsedContent) (c1 c2 c3 c4 : Nat) : MergedData × UsedContent :=
  let r1 := getVariedContent pools.special_requests u.special_requests c1
  let r2 := getVariedContent pools.food_details u.food_details c2
  let r3 := getVariedContent pools.complaints u.complaints c3
  let r4 := getVariedContent pools.debrief u.debrief c4
  ({ prepared_service := prepared
     special_requests := r1.1
     food_details := r2.1
     complaints := r3.1
     debrief := r4.1 },
   { special_requests := r1.2
     food_details := r2.2
     complaints := r3.2
     debrief := r4.2 })

/-- One slot of the mixed run of generate_shifts: either a shift with a
custom record (with the oracle indices its optional pool fallbacks
draw) or an automatic shift (with the indices its four selector calls
draw). -/
inductive ShiftInput where
  | custom (cs : CustomShift) (c1 c2 c3 c4 : Nat)
  | auto (c1 c2 c3 c4 : Nat)

def ShiftInput.isAuto : ShiftInput → Bool
  | .custom _ _ _ _ _ => false
  | .auto _ _ _ _ => true

/-- Embedding of the per-shift branch of
`CustomLogbookGenerator.generate_shifts` (src/generator_custom.py lines
95-106): a shift present in custom_data is merged via merge_custom_data,
which never touches used_content; an automatic shift draws through the
variety selector and updates it. `prepared` stands for
`content_pools[prepared_service][shift_type]`, used both as the
automatic value and as the merge default. -/
def assembleShift (pools : ContentPools) (prepared : String) :
    UsedContent → ShiftInput → MergedData × UsedContent
  | u, .custom cs c1 c2 c3 c4 =>
    (mergeCustomData cs prepared pools.special_requests pools.food_details
        pools.complaints pools.debrief c1 c2 c3 c4, u)
  | u, .auto c1 c2 c3 c4 => generateAutomaticData pools prepared u c1 c2 c3 c4

/-- The whole loop of generate_shifts over a list of shift inputs,
threading used_content and collecting the assembled records. -/
def runShifts (pools : ContentPools) (prepared : String) :
    UsedContent → List ShiftInput → List MergedData × UsedContent
  | u, [] => ([], u)
  | u, s :: ss =>
    let r := assembleShift pools prepared u s
    let rest := runShifts pools prepared r.2 ss
    (r.1 :: rest.1, rest.2)

/-- C10: assembling a shift that has a custom record neither reads nor
writes the variety histories: the produced record is the same in every
history state, the history is returned unchanged, and the final
histories of any mixed run equal those of the run restricted to its
automatic shifts alone, in order. -/
theorem claim10_custom_shift_frame (pools : ContentPools) (prepared : String)
    (u u' : UsedContent) (cs : CustomShift) (c1 c2 c3 c4 : Nat)
    (shifts : List ShiftInput) :
    (assembleShift pools prepared u (.custom cs c1 c2 c3 c4)).2 = u ∧
    (assembleShift pools prepared u (.custom cs c1 c2 c3 c4)).1 =
      (assembleShift pools prepared u' (.custom cs c1 c2 c3 c4)).1 ∧
    (runShifts pools prepared u shifts).2 =
      (runShifts pools prepared u (shifts.filter ShiftInput.isAuto)).2 := by
  refine ⟨rfl, rfl, ?_⟩
  induction shifts generalizing u with
  | nil => rfl
  | cons s ss ih =>
    cases s with
    | custom cs' d1 d2 d3 d4 =>
      simp only [runShifts, List.filter_cons, ShiftInput.isAuto,
        Bool.false_eq_true, if_false]
      exact ih u
    | auto d1 d2 d3 d4 =>
      simp only [runShifts, List.filter_cons, ShiftInput.isAuto, if_true]
      exact ih _

theorem filter_not_mem_ne_nil (pool h : List String) (hnd : pool.Nodup)
    (hlen : h.length < pool.length) :
    pool.filter (fun x => decide (x ∉ h)) ≠ [] := by
  intro hempty
  have hsub : ∀ x ∈ pool, x ∈ h := by
    intro x hx
    by_contra hxh
    have hxf : x ∈ pool.filter (fun x => decide (x ∉ h)) := by
      rw [List.mem_filter]
      exact ⟨hx, by simpa using hxh⟩
    rw [hempty] at hxf
    exact absurd hxf (List.not_mem_nil x)
  have h1 : pool.toFinset.card = pool.length := List.toFinset_card_of_nodup hnd
  have h2 : pool.toFinset ⊆ h.toFinset := by
    intro x hx
    rw [List.mem_toFinset] at hx ⊢
    exact hsub x hx
  have h3 : h.toFinset.card ≤ h.length := h.toFinset_card_le
  have h4 := Finset.card_le_card h2
  omega

theorem no_repeat_step (pool h : List String) (c : Nat) (v : String)
    (hnd : pool.Nodup) (hlen : h.length < pool.length) (hv : v ∈ h) :
    (getVariedContent pool h c).1 ≠ v := by
  unfold getVariedContent
  dsimp only
  rw [if_neg (by omega : ¬ pool.length ≤ h.length)]
  have hne := filter_not_mem_ne_nil pool h hnd hlen
  have hb : (pool.filter (fun x => decide (x ∉ h))).isEmpty = false := by
    simpa [List.isEmpty_iff] using hne
  rw [hb]
  simp only [Bool.false_eq_true, if_false]
  have hmem := randomChoice_mem _ c hne
  rw [List.mem_filter] at hmem
  intro heq
  have hnotin : randomChoice (pool.filter (fun x => decide (x ∉ h))) c ∉ h := by
    simpa using hmem.2
  exact hnotin (heq ▸ hv)

theorem mem_append_trim (l : List String) (s : String) :
    s ∈ (if 3 < (l ++ [s]).length then (l ++ [s]).drop 1 else l ++ [s]) := by
  by_cases h : 3 < (l ++ [s]).length
  · rw [if_pos h]
    have hl : 1 ≤ l.length := by
      simp only [List.length_append, List.length_singleton] at h
      omega
    rw [List.drop_append_of_le_length hl]
    simp
  · rw [if_neg h]
    simp

theorem selected_mem_hist (pool h : List String) (c : Nat) :
    (getVariedContent pool h c).1 ∈ (getVariedContent pool h c).2 := by
  unfold getVariedContent
  dsimp only
  exact mem_append_trim _ _

/-- Association-map update modelling the Python dict assignment
`history[choice] = day`; any earlier binding of the key is removed. -/
def histSet (h : List (String × Nat)) (k : String) (d : Nat) :
    List (String × Nat) :=
  (k, d) :: h.filter (fun p => decide (p.1 ≠ k))

/-- The eligibility test of _choose_unique: an item is eligible when it
was never used or was used at least `gap` days before `day` (Nat
subtraction matches the Python int comparison because an entry later
than `day` gives a negative difference there and 0 here, both below any
positive gap). -/
def gapEligible (hist : List (String × Nat)) (day gap : Nat) (r : String) : Bool :=
  match hist.lookup r with
  | none => true
  | some d => decide (gap ≤ day - d)

/-- Embedding of `logbook_generator._choose_unique`
(src/logbook_generator.py lines 48-57): eligible items are those not
used within the last `gap` days; when none is eligible the history is
cleared and every item becomes eligible; the choice is recorded at the
current day. -/
def chooseUnique (items : List String) (hist : List (String × Nat))
    (day gap : Nat) (c : Nat) : String × List (String × Nat) :=
  let available := items.filter (gapEligible hist day gap)
  if available.isEmpty then
    let ch := randomChoice items c
    (ch, histSet [] ch day)
  else
    let ch := randomChoice available c
    (ch, histSet hist ch day)

/-- C4 counterexample: on the two-candidate pool [a, b], starting from
an empty history, the draw sequence a, b triggers the anti-starvation
reset on the third call, which may then draw b again: calls 2 and 3 of
this concrete run return the same value even though the pool has two
distinct candidates. -/
theorem claim4_counterexample :
    (runAll ["a", "b"] [] [0, 0, 1]).1 = ["a", "b", "b"] ∧
    (["a", "b"] : List String).Nodup := by decide

/-- C4 amended: no two consecutive calls return the same value provided
the second call does not perform the anti-starvation reset. Count-window
variant: with a duplicate-free pool and a history still shorter than the
pool, the selection avoids everything in the history, and each call puts
its result into the post-call history, so the next non-resetting call
cannot repeat it. Gap-window variant: when some item is eligible, the
choice is an eligible item, hence never one used within the gap, such as
the previous call's choice. Immediately after a reset, or with a
single-candidate pool, a consecutive repeat can occur. -/
theorem claim4_amended (pool h : List String) (c : Nat) (v : String)
    (items : List String) (hist : List (String × Nat))
    (day gap cg dw : Nat) (w : String)
    (hnd : pool.Nodup) (hlen : h.length < pool.length) (hv : v ∈ h)
    (hav : items.filter (gapEligible hist day gap) ≠ [])
    (hw : hist.lookup w = some dw) (hgap : ¬ gap ≤ day - dw) :
    (getVariedContent pool h c).1 ≠ v ∧
    (getVariedContent pool h c).1 ∈ (getVariedContent pool h c).2 ∧
    (chooseUnique items hist day gap cg).1 ≠ w := by
  refine ⟨no_repeat_step pool h c v hnd hlen hv, selected_mem_hist pool h c, ?_⟩
  unfold chooseUnique
  dsimp only
  have hb : (items.filter (gapEligible hist day gap)).isEmpty = false := by
    simpa [List.isEmpty_iff] using hav
  rw [hb]
  simp only [Bool.false_eq_true, if_false]
  have hmem := randomChoice_mem _ cg hav
  rw [List.mem_filter] at hmem
  intro heq
  rw [heq] at hmem
  rw [gapEligible, hw] at hmem
  simpa [hgap] using hmem.2

/-- C4 witness: the amended theorem at a three-candidate pool with
history [a] and, for the gap variant, an item used one day ago with an
eligible alternative present. -/
theorem claim4_amended_witness :
    (getVariedContent ["a", "b", "c"] ["a"] 0).1 ≠ "a" ∧
    (getVariedContent ["a", "b", "c"] ["a"] 0).1 ∈
      (getVariedContent ["a", "b", "c"] ["a"] 0).2 ∧
    (chooseUnique ["x", "y"] [("x", 4)] 5 8 0).1 ≠ "x" :=
  claim4_amended ["a", "b", "c"] ["a"] 0 "a" ["x", "y"] [("x", 4)] 5 8 0 4 "x"
    (by decide) (by decide) (by decide) (by decide) (by decide) (by decide)

theorem runAll_length (pool h : List String) (cs : List Nat) :
    (runAll pool h cs).1.length = cs.length := by
  induction cs generalizing h with
  | nil => rfl
  | cons c cs ih => simp [runAll, ih]

theorem runAll_append (pool : List String) (h : List String) (cs1 cs2 : List Nat) :
    (runAll pool h (cs1 ++ cs2)).1 =
      (runAll pool h cs1).1 ++ (runAll pool (runAll pool h cs1).2 cs2).1 ∧
    (runAll pool h (cs1 ++ cs2)).2 =
      (runAll pool (runAll pool h cs1).2 cs2).2 := by
  induction cs1 generalizing h with
  | nil => simp [runAll]
  | cons c cs ih =>
    simp only [List.cons_append, runAll, List.append_eq]
    exact ⟨by rw [(ih _).1], by rw [(ih _).2]⟩

theorem step_no_reset (pool h : List String) (c : Nat)
    (hnd : pool.Nodup) (hlen : h.length < pool.length) (hK : pool.length ≤ 3) :
    (getVariedContent pool h c).2 = h ++ [(getVariedContent pool h c).1] ∧
    (getVariedContent pool h c).1 ∈ pool ∧
    (getVariedContent pool h c).1 ∉ h := by
  have hne := filter_not_mem_ne_nil pool h hnd hlen
  have hb : (pool.filter (fun x => decide (x ∉ h))).isEmpty = false := by
    simpa [List.isEmpty_iff] using hne
  have hmem := randomChoice_mem _ c hne
  rw [List.mem_filter] at hmem
  unfold getVariedContent
  dsimp only
  rw [if_neg (by omega : ¬ pool.length ≤ h.length), hb]
  simp only [Bool.false_eq_true, if_false]
  refine ⟨?_, hmem.1, by simpa using hmem.2⟩
  rw [if_neg]
  simp only [List.length_append, List.length_singleton]
  omega

theorem fill_phase (pool : List String) (hnd : pool.Nodup) (hK : pool.length ≤ 3) :
    ∀ (cs : List Nat) (h : List String),
      h.Nodup → h.length + cs.length ≤ pool.length →
      (runAll pool h cs).2 = h ++ (runAll pool h cs).1 ∧
      (h ++ (runAll pool h cs).1).Nodup ∧
      (∀ x ∈ (runAll pool h cs).1, x ∈ pool) := by
  intro cs
  induction cs with
  | nil =>
    intro h hh hlen
    refine ⟨by simp [runAll], by simpa [runAll] using hh, by simp [runAll]⟩
  | cons c cs ih =>
    intro h hh hlen
    have hlt : h.length < pool.length := by
      simp only [List.length_cons] at hlen
      omega
    obtain ⟨hst, hvmem, hvnot⟩ := step_no_reset pool h c hnd hlt hK
    have hh2 : (h ++ [(getVariedContent pool h c).1]).Nodup := by
      simp [List.nodup_append, hh, hvnot]
    have hlen2 : (h ++ [(getVariedContent pool h c).1]).length + cs.length ≤ pool.length := by
      simp only [List.length_append, List.length_singleton, List.length_cons,
        List.length_nil] at hlen ⊢
      omega
    obtain ⟨ih1, ih2, ih3⟩ := ih (h ++ [(getVariedContent pool h c).1]) hh2 hlen2
    simp only [runAll]
    rw [hst]
    refine ⟨?_, ?_, ?_⟩
    · rw [ih1]
      simp
    · simpa using ih2
    · intro x hx
      rcases List.mem_cons.mp hx with hx | hx
      · exact hx ▸ hvmem
      · exact ih3 x hx

theorem nodup_subset_full (pool s : List String) (hs : s.Nodup)
    (hsub : ∀ x ∈ s, x ∈ pool) (hlen : pool.length ≤ s.length) :
    ∀ x ∈ pool, x ∈ s := by
  have h1 : s.toFinset.card = s.length := List.toFinset_card_of_nodup hs
  have h2 : s.toFinset ⊆ pool.toFinset := by
    intro x hx
    rw [List.mem_toFinset] at hx ⊢
    exact hsub x hx
  have h3 : pool.toFinset.card ≤ pool.length := pool.toFinset_card_le
  have h4 : pool.toFinset = s.toFinset :=
    (Finset.eq_of_subset_of_card_le h2 (by omega)).symm
  intro x hx
  have hx2 : x ∈ pool.toFinset := List.mem_toFinset.mpr hx
  rw [h4] at hx2
  exact List.mem_toFinset.mp hx2

theorem step_reset (pool h : List String) (c : Nat) (hge : pool.length ≤ h.length) :
    getVariedContent pool h c = getVariedContent pool [] c := by
  unfold getVariedContent
  dsimp only
  rw [if_pos hge]
  by_cases hp : pool.length ≤ ([] : List String).length
  · rw [if_pos hp]
  · rw [if_neg hp]

theorem runAll_reset_cons (pool h : List String) (c : Nat) (cs : List Nat)
    (hge : pool.length ≤ h.length) :
    runAll pool h (c :: cs) = runAll pool [] (c :: cs) := by
  simp only [runAll]
  rw [step_reset pool h c hge]

/-- C6 counterexample: pool [a, b] of size K = 2 with history bound
3 >= K, starting from the empty history: the run with draws a, b, then b
after the reset makes the sliding window of the 2nd and 3rd selections
[b, b], which misses candidate a: a window of K consecutive selections
need not contain every candidate. -/
theorem claim6_counterexample :
    (runAll ["a", "b"] [] [0, 0, 1]).1.drop 1 = ["b", "b"] ∧
    (["a", "b"] : List String).Nodup ∧
    ("a" : String) ∈ ["a", "b"] ∧
    ("a" : String) ∉ ((runAll ["a", "b"] [] [0, 0, 1]).1.drop 1).take 2 := by
  decide

/-- C6 amended: for a duplicate-free pool of size K with K <= 3 (the
history bound), starting from the empty history, the selections fall
into consecutive aligned blocks of K calls, and every block contains
every candidate at least once: the j-th block (selections jK+1 ..
jK+K) covers the pool, for every draw sequence long enough to contain
it. Sliding (non-aligned) windows of K selections can miss a candidate
by straddling an anti-starvation reset. -/
theorem claim6_amended (pool : List String) (cs : List Nat) (j : Nat) (x : String)
    (hnd : pool.Nodup) (hne : pool ≠ []) (hK : pool.length ≤ 3)
    (hlen : (j + 1) * pool.length ≤ cs.length) (hx : x ∈ pool) :
    x ∈ ((runAll pool [] cs).1.drop (j * pool.length)).take pool.length := by
  induction j generalizing cs with
  | zero =>
    have hK1 : 1 ≤ pool.length := List.length_pos.mpr hne
    have hcs : pool.length ≤ cs.length := by
      simpa using hlen
    have hsplit := List.take_append_drop pool.length cs
    rw [← hsplit, (runAll_append pool [] _ _).1]
    have hlen1 : ((runAll pool [] (cs.take pool.length)).1).length = pool.length := by
      rw [runAll_length]
      simp only [List.length_take]
      omega
    rw [Nat.zero_mul, List.drop_zero, List.take_left' hlen1]
    obtain ⟨h1, h2, h3⟩ := fill_phase pool hnd hK (cs.take pool.length) []
      List.nodup_nil (by simp only [List.length_nil, List.length_take]; omega)
    exact nodup_subset_full pool _ (by simpa using h2) h3 (by omega) x hx
  | succ j ih =>
    have hK1 : 1 ≤ pool.length := List.length_pos.mpr hne
    have hcs : pool.length ≤ cs.length := by
      have hmul : 1 * pool.length ≤ (j + 1 + 1) * pool.length :=
        Nat.mul_le_mul_right pool.length (by omega)
      omega
    have hsplit := List.take_append_drop pool.length cs
    rw [← hsplit, (runAll_append pool [] _ _).1]
    have hlen1 : ((runAll pool [] (cs.take pool.length)).1).length = pool.length := by
      rw [runAll_length]
      simp only [List.length_take]
      omega
    obtain ⟨h1, h2, h3⟩ := fill_phase pool hnd hK (cs.take pool.length) []
      List.nodup_nil (by simp only [List.length_nil, List.length_take]; omega)
    have hstlen : pool.length ≤ ((runAll pool [] (cs.take pool.length)).2).length := by
      rw [h1]
      simp only [List.nil_append, runAll_length]
      simp only [List.length_take]
      omega
    have hdlen : (j + 1) * pool.length ≤ (cs.drop pool.length).length := by
      simp only [List.length_drop]
      have : (j + 1 + 1) * pool.length = (j + 1) * pool.length + pool.length := by ring
      omega
    obtain ⟨d, ds, hds⟩ : ∃ d ds, cs.drop pool.length = d :: ds := by
      cases hd : cs.drop pool.length with
      | nil =>
        rw [hd] at hdlen
        simp only [List.length_nil, Nat.le_zero] at hdlen
        have hmul : 1 * pool.length ≤ (j + 1) * pool.length :=
          Nat.mul_le_mul_right pool.length (by omega)
        omega
      | cons d ds => exact ⟨d, ds, rfl⟩
    have hreset :
        runAll pool ((runAll pool [] (cs.take pool.length)).2) (cs.drop pool.length) =
          runAll pool [] (cs.drop pool.length) := by
      rw [hds]
      exact runAll_reset_cons pool _ d ds hstlen
    rw [hreset]
    have harith : (j + 1) * pool.length = pool.length + j * pool.length := by ring
    have hdrop := @List.drop_append String
      ((runAll pool [] (cs.take pool.length)).1)
      ((runAll pool [] (cs.drop pool.length)).1) (j * pool.length)
    rw [hlen1] at hdrop
    rw [harith, hdrop]
    exact ih (cs.drop pool.length) hdlen

/-- C6 witness: the aligned-block coverage theorem on the pool [a, b]
with the four-draw run a, b, b, a: the second block (selections 3 and 4)
contains candidate a. -/
theorem claim6_amended_witness :
    ("a" : String) ∈ ((runAll ["a", "b"] [] [0, 0, 1, 0]).1.drop (1 * 2)).take 2 :=
  claim6_amended ["a", "b"] [0, 0, 1, 0] 1 "a"
    (by decide) (by decide) (by decide) (by decide) (by decide)

end Preenchimento
